import Mathlib

/-!
Verification development for the bmm bookmark manager.

Shallow embedding of the two bookmark controllers
(src/controllers/PublicBookmark.controller.ts and
src/controllers/UserBookmark.controller.ts) and of the manual sort
reconciler of the bookmark list page.  The relational join table
bookmark-to-tag is modelled as a finite set of (bId, tId) rows, which is
faithful to the schema's uniqueness invariant on the pair.
-/

namespace Bmm

/-- A bookmark-to-tag join table: a set of (bId, tId) rows. -/
abbrev JoinTable := Finset (Nat × Nat)

/-- `fullSetBookmarkToTag` of PublicBookmark.controller.ts.
Two store writes are issued (concurrently, on disjoint row sets):
an `insert … onConflictDoNothing` of `(bId, t)` for every `t ∈ tagIds`,
and a `delete` of every row of `bId` whose tag is not in `tagIds`.
The resulting state keeps every row that the delete predicate does not
match and contains every inserted pair. -/
def publicFullSet (s : JoinTable) (b : Nat) (tagIds : List Nat) : JoinTable :=
  (s.filter (fun r => ¬(r.1 = b ∧ r.2 ∉ tagIds))) ∪
    (tagIds.map (fun t => (b, t))).toFinset

/-- `fullSetBookmarkToTag` of UserBookmark.controller.ts.
An empty (or absent) `tagIds` returns immediately without touching the
table.  Otherwise the ids are first run through
`UserTagController.filterUserTagIds`, which keeps only the ids owned by
the requesting user (modelled by the `owned` list, per the collaborator
contract "subset of ids actually owned"); the insert is skipped when the
filtered list is empty, and the delete removes the rows of `b` whose tag
is not in the filtered list. -/
def userFullSet (s : JoinTable) (b : Nat) (tagIds : List Nat)
    (owned : List Nat) : JoinTable :=
  if tagIds.isEmpty then s
  else
    let filtered := tagIds.filter (fun t => t ∈ owned)
    (s.filter (fun r => ¬(r.1 = b ∧ r.2 ∉ filtered))) ∪
      (filtered.map (fun t => (b, t))).toFinset

/-! ### findMany: filters, ordering and pagination -/

/-- A row of the `publicBookmarks` table (the columns the controllers read).
Timestamps are epoch milliseconds. -/
structure PubRow where
  id : Nat
  name : String
  url : String
  pinyin : String
  sortOrder : Int
  createdAt : Int
  updatedAt : Int
deriving DecidableEq, Repr

/-- A row of the `userBookmarks` table: a public row plus its owner. -/
structure UserRow where
  id : Nat
  userId : Nat
  name : String
  url : String
  pinyin : String
  sortOrder : Int
  createdAt : Int
  updatedAt : Int
deriving DecidableEq, Repr

/-- Public database state: the bookmark table, the bookmark-to-tag join
table, and the tag table (id, name) in its fetch order. -/
structure PubDB where
  bookmarks : List PubRow
  rows : JoinTable
  tags : List (Nat × String)

/-- User-scope database state as seen by one authenticated user: their
bookmark rows, the join table, and their own tags (id, name). -/
structure UserDB where
  bookmarks : List UserRow
  rows : JoinTable
  tags : List (Nat × String)

/-- The parsed output of `findManyBookmarksSchema`. -/
structure FindQuery where
  keyword : Option String
  tagIds : List Nat
  tagNames : List String
  page : Nat
  limit : Nat
  sorterKey : String

/-- Is the character list `pat` a contiguous sublist of `s`?  Executable
substring test used for the `includes`/`LIKE` checks. -/
def containsSub (pat : List Char) : List Char → Bool
  | [] => pat.isEmpty
  | c :: rest => pat.isPrefixOf (c :: rest) || containsSub pat rest

/-- Lower-cased character list of a string. -/
def lowerChars (s : String) : List Char := s.data.map Char.toLower

/-- Modelled from the spec: `createBookmarkFilterByKeyword` lives in
src/controllers/common.ts, which is not among the provided sources; the
spec defines it as "a predicate matching bookmarks whose name, url, or
pinyin field contains the keyword as a case-insensitive substring (OR
across fields)". -/
def keywordMatch (kw name url pinyin : String) : Bool :=
  containsSub (lowerChars kw) (lowerChars name) ||
    containsSub (lowerChars kw) (lowerChars url) ||
    containsSub (lowerChars kw) (lowerChars pinyin)

/-- The `HAVING COUNT(DISTINCT tId) = tagIds.length` subquery of
`findMany`: bookmark `b` passes the tag filter iff the number of distinct
tags of `b` among the requested `tagIds` equals the length of the request
list. -/
def tagFilterMatches (rows : JoinTable) (tagIds : List Nat) (b : Nat) : Bool :=
  decide (((rows.filter (fun r => r.1 = b ∧ r.2 ∈ tagIds)).image
    (fun r => r.2)).card = tagIds.length)

/-- Insertion of an element into a sorted list (stable). -/
def insertSorted (le : α → α → Bool) (a : α) : List α → List α
  | [] => [a]
  | b :: t => if le a b then a :: b :: t else b :: insertSorted le a t

/-- Stable structural sort modelling the store's `ORDER BY`. -/
def sortBy (le : α → α → Bool) (l : List α) : List α :=
  l.foldr (insertSorted le) []

/-- The `orderBy` clause of `findMany`: `manual` sorts by sortOrder
descending then updatedAt descending; otherwise a leading `-` means
descending, and the key's substring picks updatedAt or createdAt; any
other key leaves the list unordered. -/
def applyOrder (sorterKey : String) (sortOrd updAt crtAt : α → Int)
    (l : List α) : List α :=
  if sorterKey = "manual" then
    sortBy (fun a b => decide (sortOrd b < sortOrd a ∨
      (sortOrd a = sortOrd b ∧ updAt b ≤ updAt a))) l
  else if containsSub "update".data sorterKey.data then
    sortBy (fun a b =>
      if sorterKey.startsWith "-" then decide (updAt b ≤ updAt a)
      else decide (updAt a ≤ updAt b)) l
  else if containsSub "create".data sorterKey.data then
    sortBy (fun a b =>
      if sorterKey.startsWith "-" then decide (crtAt b ≤ crtAt a)
      else decide (crtAt a ≤ crtAt b)) l
  else l

/-- Result of `findMany`. -/
structure FindResult (α : Type) where
  list : List α
  total : Nat
  hasMore : Bool
deriving DecidableEq, Repr

/-- Tag-name resolution of `findMany`: each requested tag name found in
the fetched tag list pushes its id onto the requested tag ids. -/
def resolveTagIds (tags : List (Nat × String)) (q : FindQuery) : List Nat :=
  q.tagIds ++ q.tagNames.filterMap
    (fun nm => (tags.find? (fun t => t.2 = nm)).map (fun t => t.1))

/-- Does the optional keyword count as present (JS truthiness: a missing
or empty string disables the keyword filter)? -/
def kwTruthy : Option String → Bool
  | some k => !(k = "")
  | none => false

/-- `findMany` of PublicBookmark.controller.ts: combined keyword and tag
filters, ordering, pagination, and a total computed over the same filter. -/
def publicFindMany (db : PubDB) (q : FindQuery) : FindResult PubRow :=
  let resolved := resolveTagIds db.tags q
  let filtered := db.bookmarks.filter (fun r =>
    (if kwTruthy q.keyword then
        keywordMatch (q.keyword.getD "") r.name r.url r.pinyin
      else true) &&
    (if resolved.isEmpty then true else tagFilterMatches db.rows resolved r.id))
  let sorted := applyOrder q.sorterKey (fun r => r.sortOrder)
    (fun r => r.updatedAt) (fun r => r.createdAt) filtered
  let total := filtered.length
  ⟨(sorted.drop ((q.page - 1) * q.limit)).take q.limit, total,
    decide (q.page * q.limit < total)⟩

/-- Modelled from the spec: `UserTagController.filterUserTagIds` is not
among the provided sources; the spec's collaborator contract is
"`filterOwnedTagIds(userId, ids) -> subset of ids actually owned`".  The
user's owned tag ids are the ids of their fetched tag list. -/
def filterUserTagIds (tags : List (Nat × String)) (ids : List Nat) : List Nat :=
  ids.filter (fun t => t ∈ tags.map (fun p => p.1))

/-- The tag-id list the user-scope `findMany` actually filters by:
name-resolved ids restricted to the ids owned by the user. -/
def userResolvedTagIds (db : UserDB) (q : FindQuery) : List Nat :=
  filterUserTagIds db.tags (resolveTagIds db.tags q)

/-- `findMany` of UserBookmark.controller.ts: like the public variant with
an owner filter, and the requested tag ids are first restricted to the
user's own tags. -/
def userFindMany (db : UserDB) (userId : Nat) (q : FindQuery) :
    FindResult UserRow :=
  let newTagIds := userResolvedTagIds db q
  let filtered := db.bookmarks.filter (fun r =>
    (r.userId = userId : Bool) &&
    (if kwTruthy q.keyword then
        keywordMatch (q.keyword.getD "") r.name r.url r.pinyin
      else true) &&
    (if newTagIds.isEmpty then true
      else tagFilterMatches db.rows newTagIds r.id))
  let sorted := applyOrder q.sorterKey (fun r => r.sortOrder)
    (fun r => r.updatedAt) (fun r => r.createdAt) filtered
  let total := filtered.length
  ⟨(sorted.drop ((q.page - 1) * q.limit)).take q.limit, total,
    decide (q.page * q.limit < total)⟩

/-! ### Export serializer -/

/-- A JS value held in a createdAt/updatedAt column as `buildBookmarkHtml`
sees it (the column type is `unknown`): a `Date` (epoch milliseconds), a
number, or a string paired with its `Date.parse` result (`none` when the
string does not parse to a finite time). -/
inductive TimeVal where
  | date (ms : Int)
  | num (n : Int)
  | str (parsed : Option Int)
deriving DecidableEq, Repr

/-- `toUnixSeconds` of `buildBookmarkHtml`: a `Date` yields
`floor(getTime()/1000)`; a number above 10_000_000_000 is treated as
milliseconds and floor-divided by 1000, otherwise returned as is; a
parseable string yields `floor(parse/1000)`; anything else falls back to
`floor(Date.now()/1000)`, where `nowMs` is the clock value at the call. -/
def toUnixSeconds (val : Option TimeVal) (nowMs : Int) : Int :=
  match val with
  | some (TimeVal.date ms) => Int.fdiv ms 1000
  | some (TimeVal.num n) => if 10000000000 < n then Int.fdiv n 1000 else n
  | some (TimeVal.str (some t)) => Int.fdiv t 1000
  | some (TimeVal.str none) => Int.fdiv nowMs 1000
  | none => Int.fdiv nowMs 1000

/-- Does the value parse to a time without consulting the clock? -/
def parsesTime : Option TimeVal → Bool
  | some (TimeVal.date _) => true
  | some (TimeVal.num _) => true
  | some (TimeVal.str (some _)) => true
  | _ => false

/-- The `??` (nullish coalescing) operator on optional time values. -/
def coalesce (a b : Option TimeVal) : Option TimeVal :=
  match a with
  | some v => some v
  | none => b

/-- `val.replaceAll(c, rep)` for a single-character pattern, character by
character; for a one-character pattern this coincides with JS
`replaceAll`. -/
def replaceAllChar (c : Char) (rep : String) (s : String) : String :=
  String.mk (s.data.flatMap (fun d => if d = c then rep.data else [d]))

/-- `escapeHtml` of `buildBookmarkHtml`: replaceAll of `&`, `<`, `>`, `"`
in that order. -/
def escapeHtml (s : String) : String :=
  replaceAllChar '"' "&quot;"
    (replaceAllChar '>' "&gt;"
      (replaceAllChar '<' "&lt;"
        (replaceAllChar '&' "&amp;" s)))

/-- `BookmarkHtmlItem` of the controllers. -/
structure HtmlItem where
  name : String
  url : String
  createdAt : Option TimeVal
  updatedAt : Option TimeVal
deriving DecidableEq, Repr

/-- `BookmarkHtmlFolder` of the controllers. -/
structure HtmlFolder where
  name : String
  bookmarks : List HtmlItem
deriving DecidableEq, Repr

/-- One `<DT><A …>` bookmark entry line of `buildBookmarkHtml`; the name
falls back to the url when empty (`b.name || b.url`). -/
def bookmarkEntryLine (b : HtmlItem) (nowMs : Int) : String :=
  "      <DT><A HREF=\"" ++ escapeHtml b.url ++ "\" ADD_DATE=\"" ++
    toString (toUnixSeconds (coalesce b.createdAt b.updatedAt) nowMs) ++
    "\">" ++ escapeHtml (if b.name = "" then b.url else b.name) ++ "</A>"

/-- The lines emitted for one folder by `buildBookmarkHtml`. -/
def folderLines (folder : HtmlFolder) (nowMs : Int) : List String :=
  ("    <DT><H3 ADD_DATE=\"" ++ toString (Int.fdiv nowMs 1000) ++ "\">" ++
      escapeHtml folder.name ++ "</H3>") ::
    "    <DL><p>" ::
    (folder.bookmarks.map (fun b => bookmarkEntryLine b nowMs)) ++
      ["    </DL><p>"]

/-- The full line list of `buildBookmarkHtml`. -/
def buildBookmarkLines (title folderName : String)
    (folders : List HtmlFolder) (nowMs : Int) : List String :=
  ["<!DOCTYPE NETSCAPE-Bookmark-file-1>",
    "<META HTTP-EQUIV=\"Content-Type\" CONTENT=\"text/html; charset=UTF-8\">",
    "<TITLE>" ++ escapeHtml title ++ "</TITLE>",
    "<H1>" ++ escapeHtml title ++ "</H1>",
    "<DL><p>",
    "  <DT><H3 ADD_DATE=\"" ++ toString (Int.fdiv nowMs 1000) ++ "\">" ++
      escapeHtml folderName ++ "</H3>",
    "  <DL><p>"] ++
    (folders.flatMap (fun f => folderLines f nowMs)) ++
    ["  </DL><p>", "</DL><p>"]

/-- `buildBookmarkHtml`: the lines joined with a newline. -/
def buildBookmarkHtml (title folderName : String)
    (folders : List HtmlFolder) (nowMs : Int) : String :=
  "\n".intercalate (buildBookmarkLines title folderName folders nowMs)

/-- A bookmark as fetched by `exportHtml` (name, url, timestamps and the
associated tag ids from the join table). -/
structure ExpBookmark where
  name : String
  url : String
  createdAt : Option TimeVal
  updatedAt : Option TimeVal
  relatedTagIds : List Nat
deriving DecidableEq, Repr

/-- The `BookmarkHtmlItem` built from a fetched bookmark. -/
def toItem (b : ExpBookmark) : HtmlItem :=
  ⟨b.name, b.url, b.createdAt, b.updatedAt⟩

/-- One iteration of the grouping loop of `exportHtml`: the accumulator is
the `tagIdToBookmarks` map (as a function from tag id to its bucket) and
the `untagged` list.  The code first filters the bookmark's tag ids by
`Number.isFinite`, which keeps every id in this model since the schema's
ids are integers; if the list is empty the item goes to `untagged`,
otherwise it is pushed to the bucket of each of its tag ids that the
fetched tag set contains (`tagIdToName.has`). -/
def exportGroupStep (tagKeys : List Nat)
    (acc : (Nat → List HtmlItem) × List HtmlItem) (b : ExpBookmark) :
    (Nat → List HtmlItem) × List HtmlItem :=
  let item := toItem b
  let tagIds := b.relatedTagIds
  if tagIds.isEmpty then (acc.1, acc.2 ++ [item])
  else
    (tagIds.foldl (fun m tId =>
        if tId ∈ tagKeys then fun t => if t = tId then m t ++ [item] else m t
        else m) acc.1,
      acc.2)

/-- The grouping loop of `exportHtml` over the fetched bookmark list. -/
def exportGroups (tags : List (Nat × String)) (list : List ExpBookmark) :
    (Nat → List HtmlItem) × List HtmlItem :=
  list.foldl (exportGroupStep (tags.map (fun t => t.1))) (fun _ => [], [])

/-- The folder list of `exportHtml`: one folder per fetched tag with a
non-empty bucket, in tag-fetch order, then a 未分类 folder for the
untagged items when non-empty. -/
def exportFolders (tags : List (Nat × String)) (list : List ExpBookmark) :
    List HtmlFolder :=
  let acc := exportGroups tags list
  (tags.filterMap (fun t =>
      if (acc.1 t.1).isEmpty then none else some ⟨t.2, acc.1 t.1⟩)) ++
    (if acc.2.isEmpty then [] else [⟨"未分类", acc.2⟩])

/-- `exportHtml` of PublicBookmark.controller.ts, given the fetched tags
and bookmarks and the clock. -/
def exportPublicHtml (tags : List (Nat × String)) (list : List ExpBookmark)
    (nowMs : Int) : String :=
  buildBookmarkHtml "bmm public bookmarks" "bmm-export"
    (exportFolders tags list) nowMs

/-- `exportHtml` of UserBookmark.controller.ts, given the user's fetched
tags and bookmarks and the clock. -/
def exportUserHtml (tags : List (Nat × String)) (list : List ExpBookmark)
    (nowMs : Int) : String :=
  buildBookmarkHtml "bmm user bookmarks" "bmm-export"
    (exportFolders tags list) nowMs

/-- The ADD_DATE rule in the words of the claim (for comparison with the
code's `toUnixSeconds`): the Unix-seconds value of createdAt, falling back
to updatedAt, falling back to the current time if neither parses. -/
def specParseSeconds : Option TimeVal → Option Int
  | some (TimeVal.date ms) => some (Int.fdiv ms 1000)
  | some (TimeVal.num n) =>
      some (if 10000000000 < n then Int.fdiv n 1000 else n)
  | some (TimeVal.str (some t)) => some (Int.fdiv t 1000)
  | some (TimeVal.str none) => none
  | none => none

/-- The claim's ADD_DATE value: createdAt if it parses, else updatedAt if
it parses, else the current time. -/
def specAddDate (c u : Option TimeVal) (nowMs : Int) : Int :=
  match specParseSeconds c with
  | some s => s
  | none =>
    match specParseSeconds u with
    | some s => s
    | none => Int.fdiv nowMs 1000

/-- Fixture: a bookmark whose only tag id (99) is not in the fetched tag
set. -/
def exDangler : ExpBookmark := ⟨"d", "u", none, none, [99]⟩

/-- Fixture: a bookmark tagged with tags 1 and 2. -/
def exTagged12 : ExpBookmark := ⟨"x", "ux", none, none, [1, 2]⟩

/-- Fixture: a bookmark with no tags. -/
def exUntagged : ExpBookmark := ⟨"y", "uy", none, none, []⟩

/-- Fixture: a public bookmark row with id 1. -/
def exRow1 : PubRow := ⟨1, "a", "u", "p", 1, 0, 0⟩

/-- Fixture: a public database where bookmark 1 carries exactly the tags
`{1, 2}`. -/
def exDb1 : PubDB := ⟨[exRow1], {(1, 1), (1, 2)}, []⟩

/-- Fixture: a query for tag ids `[1, 3]`. -/
def exQuery13 : FindQuery := ⟨none, [1, 3], [], 1, 20, "manual"⟩

/-- Fixture: a query for tag ids `[1, 2]`. -/
def exQuery12 : FindQuery := ⟨none, [1, 2], [], 1, 20, "manual"⟩

/-! ### insert, update, deleteMany, manual sort reconciler -/

/-- The caller-supplied draft of `insert` (both scopes): url and name are
required, pinyin/sortOrder/relatedTagIds optional.  The pinyin
transliteration collaborator `getPinyin` is passed in as `gp`. -/
structure InsertDraft where
  name : String
  url : String
  pinyin : Option String
  sortOrder : Option Int
  relatedTagIds : Option (List Nat)
deriving DecidableEq, Repr

/-- `insert` of PublicBookmark.controller.ts.  `newId` is the
store-generated id of the new row and `now` the store-managed timestamp.
The duplicate check counts rows whose url OR name equals the draft's
(case-sensitive text equality); on collision the operation fails.
`pinyin ||= getPinyin(name)` recomputes pinyin when it is absent or the
empty string (falsy).  When the draft carries no sortOrder, a second write
sets sortOrder to the new id. -/
def publicInsert (gp : String → String) (db : PubDB) (newId : Nat)
    (now : Int) (d : InsertDraft) : Except String (PubDB × PubRow) :=
  let cnt := db.bookmarks.countP
    (fun r => decide (r.url = d.url ∨ r.name = d.name))
  if 0 < cnt then Except.error "书签已存在"
  else
    let pinyin := match d.pinyin with
      | some p => if p = "" then gp d.name else p
      | none => gp d.name
    let rows' := match d.relatedTagIds with
      | some l => if l.isEmpty then db.rows else publicFullSet db.rows newId l
      | none => db.rows
    let row : PubRow :=
      ⟨newId, d.name, d.url, pinyin, d.sortOrder.getD (Int.ofNat newId),
        now, now⟩
    Except.ok (⟨db.bookmarks ++ [row], rows', db.tags⟩, row)

/-- `insert` of UserBookmark.controller.ts: the duplicate check is
restricted to the requesting user's rows, and the tag reconciliation runs
through the user-scoped `fullSetBookmarkToTag` (which drops unowned ids
and no-ops on an absent/empty list). -/
def userInsert (gp : String → String) (db : UserDB) (userId newId : Nat)
    (now : Int) (d : InsertDraft) : Except String (UserDB × UserRow) :=
  let cnt := db.bookmarks.countP
    (fun r => decide (r.userId = userId ∧ (r.url = d.url ∨ r.name = d.name)))
  if 0 < cnt then Except.error "已存在相同网址或名称的书签"
  else
    let pinyin := match d.pinyin with
      | some p => if p = "" then gp d.name else p
      | none => gp d.name
    let rows' := userFullSet db.rows newId (d.relatedTagIds.getD [])
      (db.tags.map (fun t => t.1))
    let row : UserRow :=
      ⟨newId, userId, d.name, d.url, pinyin,
        d.sortOrder.getD (Int.ofNat newId), now, now⟩
    Except.ok (⟨db.bookmarks ++ [row], rows', db.tags⟩, row)

/-- A partial `update` patch: each optional scalar field is present or
absent (`relatedTagIds` is split off before the scalar write, `id` is
passed separately). -/
structure Patch where
  name : Option String
  url : Option String
  pinyin : Option String
  relatedTagIds : Option (List Nat)
deriving DecidableEq, Repr

/-- The scalar `set` clause of the public `update` applied to one row.
The object literal is `{...resetBookmark, updatedAt: new Date(), pinyin:
resetBookmark.name ? getPinyin(resetBookmark.name) : undefined}`: the
later `pinyin:` key overrides the spread, so the stored pinyin is
`getPinyin(name)` whenever the patch's name is truthy, and the column is
left untouched otherwise (drizzle drops `undefined` values from `set`),
regardless of any pinyin the caller supplied. -/
def pubPatchRow (gp : String → String) (p : Patch) (now : Int)
    (r : PubRow) : PubRow :=
  { r with
    name := p.name.getD r.name
    url := p.url.getD r.url
    pinyin := match p.name with
      | some n => if n = "" then r.pinyin else gp n
      | none => r.pinyin
    updatedAt := now }

/-- `update` of PublicBookmark.controller.ts: the tag reconciliation runs
only for a non-empty `relatedTagIds`, and the scalar write only when the
patch has at least one scalar key. -/
def publicUpdate (gp : String → String) (db : PubDB) (id : Nat)
    (p : Patch) (now : Int) : PubDB :=
  let rows' := match p.relatedTagIds with
    | some l => if l.isEmpty then db.rows else publicFullSet db.rows id l
    | none => db.rows
  let bookmarks' :=
    if p.name.isSome || p.url.isSome || p.pinyin.isSome then
      db.bookmarks.map (fun r => if r.id = id then pubPatchRow gp p now r else r)
    else db.bookmarks
  ⟨bookmarks', rows', db.tags⟩

/-- The scalar `set` clause of the user `update` applied to one row: with
a truthy patch name and a falsy patch pinyin (absent or empty), pinyin is
recomputed from the name; otherwise a present pinyin is stored as
supplied and an absent one leaves the column unchanged. -/
def userPatchRow (gp : String → String) (p : Patch) (now : Int)
    (r : UserRow) : UserRow :=
  let pinyinField :=
    if (match p.name with | some n => !(n = "") | none => false) &&
        (match p.pinyin with | some q => (q = "" : Bool) | none => true) then
      some (gp (p.name.getD ""))
    else p.pinyin
  { r with
    name := p.name.getD r.name
    url := p.url.getD r.url
    pinyin := pinyinField.getD r.pinyin
    updatedAt := now }

/-- `update` of UserBookmark.controller.ts: the tag reconciliation is
always issued (the user-scoped fullSet no-ops on an absent list) and the
scalar write is restricted by `userLimiter` to the user's own row. -/
def userUpdate (gp : String → String) (db : UserDB) (userId id : Nat)
    (p : Patch) (now : Int) : UserDB :=
  let rows' := userFullSet db.rows id (p.relatedTagIds.getD [])
    (db.tags.map (fun t => t.1))
  let bookmarks' :=
    if p.name.isSome || p.url.isSome || p.pinyin.isSome then
      db.bookmarks.map (fun r =>
        if r.id = id && r.userId = userId then userPatchRow gp p now r else r)
    else db.bookmarks
  ⟨bookmarks', rows', db.tags⟩

/-- `deleteMany` of PublicBookmark.controller.ts: an empty id list is a
no-op returning `deleted = 0`; otherwise the matching rows are deleted and
the RETURNED COUNT IS the length of the requested id list, whether or not
each id matched a row. -/
def publicDeleteMany (db : PubDB) (ids : List Nat) : PubDB × Nat :=
  if ids.isEmpty then (db, 0)
  else
    (⟨db.bookmarks.filter (fun r => !decide (r.id ∈ ids)), db.rows, db.tags⟩,
      ids.length)

/-- `deleteMany` of UserBookmark.controller.ts: deletion is additionally
restricted to rows owned by the requesting user, but the returned count is
still the length of the requested id list. -/
def userDeleteMany (db : UserDB) (userId : Nat) (ids : List Nat) :
    UserDB × Nat :=
  if ids.isEmpty then (db, 0)
  else
    (⟨db.bookmarks.filter
        (fun r => !(decide (r.userId = userId) && decide (r.id ∈ ids))),
      db.rows, db.tags⟩,
      ids.length)

/-- The projection of a displayed bookmark the sort reconciler reads: its
id and its current sortOrder (absent when never set). -/
structure SortB where
  id : Nat
  sortOrder : Option Int
deriving DecidableEq, Repr

/-- `Math.max(0, ...bookmarks.map((b) => b.sortOrder || 0))`. -/
def maxExistingOrder (bs : List SortB) : Int :=
  bs.foldl (fun m b => max m (b.sortOrder.getD 0)) 0

/-- `onSaveSorting` of the bookmark list page: with no active filter each
displayed bookmark gets order `(max existing order, floored at 0) + length
- index`; with an active filter the existing orders are reused as a
descending pool (synthesised from the shared value when all are equal) and
only changed orders are written. -/
def saveSortingOrders (hasFilter : Bool) (bs : List SortB) :
    List (Nat × Int) :=
  if bs.isEmpty then []
  else if !hasFilter then
    let base := maxExistingOrder bs + bs.length
    bs.enum.map (fun p => (p.2.id, base - p.1))
  else
    let oldSorted := sortBy (fun a b => decide (b ≤ a))
      (bs.map (fun b => b.sortOrder.getD 0))
    let allSame := oldSorted.all (fun v => decide (v = oldSorted.headD 0))
    let targetOrders :=
      if allSame then
        bs.enum.map (fun p =>
          oldSorted.headD 0 + ((bs.length : Int) - (p.1 : Int)))
      else oldSorted
    (bs.enum.map (fun p =>
        (p.2.id, targetOrders.getD p.1 0, p.2.sortOrder.getD 0))).filterMap
      (fun x => if x.2.1 = x.2.2 then none else some (x.1, x.2.1))

/-- Fixture: an empty public database. -/
def emptyPubDB : PubDB := ⟨[], ∅, []⟩

/-- Fixture: an empty user database. -/
def emptyUserDB : UserDB := ⟨[], ∅, []⟩

/-- Fixture: a transliteration collaborator that always answers "auto". -/
def exGp : String → String := fun _ => "auto"

/-- Fixture: a patch renaming to "b" with an explicitly supplied pinyin. -/
def exPatchNamePinyin : Patch := ⟨some "b", none, some "custom", none⟩

/-- Fixture: a public database holding one row named "a" with pinyin
"pa". -/
def exPubDb7 : PubDB := ⟨[⟨1, "a", "u", "pa", 1, 0, 0⟩], ∅, []⟩

/-- Fixture: the displayed list `[{id: 2, order: 5}, {id: 1, order: 10}]`
(bookmark 2 dragged above bookmark 1). -/
def exSortList : List SortB := [⟨2, some 5⟩, ⟨1, some 10⟩]

/-- The rows of bookmark `b` after `publicFullSet` are exactly the
image of the requested tag ids. -/
lemma publicFullSet_rows (s : JoinTable) (b : Nat) (tagIds : List Nat) :
    (publicFullSet s b tagIds).filter (fun r => r.1 = b) =
      (tagIds.map (fun t => (b, t))).toFinset := by
  ext ⟨x, y⟩
  simp only [publicFullSet, Finset.mem_filter, Finset.mem_union,
    List.mem_toFinset, List.mem_map, Prod.mk.injEq]
  constructor
  · rintro ⟨h | ⟨t, ht, hb, hy⟩, hx⟩
    · exact ⟨y, by tauto, hx.symm, rfl⟩
    · exact ⟨t, ht, hx.symm, hy⟩
  · rintro ⟨t, ht, hb, hy⟩
    exact ⟨Or.inr ⟨t, ht, hb, hy⟩, hb.symm⟩

/-- The rows of bookmark `b` after `userFullSet` with a non-empty request
are exactly the image of the ownership-filtered tag ids. -/
lemma userFullSet_rows (s : JoinTable) (b : Nat) (tagIds owned : List Nat)
    (h : tagIds ≠ []) :
    (userFullSet s b tagIds owned).filter (fun r => r.1 = b) =
      ((tagIds.filter (fun t => t ∈ owned)).map (fun t => (b, t))).toFinset := by
  have hne : ¬(tagIds.isEmpty = true) := by simp [List.isEmpty_iff, h]
  ext ⟨x, y⟩
  rw [userFullSet, if_neg hne]
  simp only [Finset.mem_filter, Finset.mem_union, List.mem_toFinset,
    List.mem_map, Prod.mk.injEq]
  constructor
  · rintro ⟨h | ⟨t, ht, hb, hy⟩, hx⟩
    · exact ⟨y, by tauto, hx.symm, rfl⟩
    · exact ⟨t, ht, hx.symm, hy⟩
  · rintro ⟨t, ht, hb, hy⟩
    exact ⟨Or.inr ⟨t, ht, hb, hy⟩, hb.symm⟩

/-- `publicFullSet` is idempotent. -/
lemma publicFullSet_idem (s : JoinTable) (b : Nat) (tagIds : List Nat) :
    publicFullSet (publicFullSet s b tagIds) b tagIds =
      publicFullSet s b tagIds := by
  ext ⟨x, y⟩
  simp only [publicFullSet, Finset.mem_filter, Finset.mem_union,
    List.mem_toFinset, List.mem_map, Prod.mk.injEq]
  tauto

/-- Claim C1, counterexample: in the user scope, `fullSetBookmarkToTag(1, [1, 99])`
with owned tags `{1, 2}` does not leave the rows of bookmark 1 equal to
`{(1, 1), (1, 99)}` — the unowned id 99 is silently dropped by
`filterUserTagIds`, so only `(1, 1)` remains. -/
theorem C1_user_scope_counterexample :
    (userFullSet (∅ : JoinTable) 1 [1, 99] [1, 2]).filter (fun r => r.1 = 1) ≠
      (([1, 99].map (fun t => (1, t))).toFinset : JoinTable) := by decide

/-- Claim C1 (amended): for the public scope, `fullSetBookmarkToTag(b, T)` with
non-empty `T` leaves the join rows of `b` exactly `{(b, t) : t ∈ T}`, is
idempotent, and `fullSet(b, [1,2])` then `fullSet(b, [2,3])` leaves exactly
`{(b,2), (b,3)}`.  For the user scope the final rows are the image of the
ownership-filtered list `T ∩ owned`; the claim's equality holds there only
when every id of `T` is owned by the requesting user. -/
theorem C1_fullSet_reconciliation :
    (∀ (s : JoinTable) (b : Nat) (tagIds : List Nat), tagIds ≠ [] →
        (publicFullSet s b tagIds).filter (fun r => r.1 = b) =
          (tagIds.map (fun t => (b, t))).toFinset) ∧
    (∀ (s : JoinTable) (b : Nat) (tagIds : List Nat),
        publicFullSet (publicFullSet s b tagIds) b tagIds =
          publicFullSet s b tagIds) ∧
    (∀ (s : JoinTable) (b : Nat),
        (publicFullSet (publicFullSet s b [1, 2]) b [2, 3]).filter
            (fun r => r.1 = b) = ({(b, 2), (b, 3)} : JoinTable)) ∧
    (∀ (s : JoinTable) (b : Nat) (tagIds owned : List Nat), tagIds ≠ [] →
        (userFullSet s b tagIds owned).filter (fun r => r.1 = b) =
          ((tagIds.filter (fun t => t ∈ owned)).map (fun t => (b, t))).toFinset) ∧
    (∀ (s : JoinTable) (b : Nat) (tagIds owned : List Nat), tagIds ≠ [] →
        (∀ t ∈ tagIds, t ∈ owned) →
        (userFullSet s b tagIds owned).filter (fun r => r.1 = b) =
          (tagIds.map (fun t => (b, t))).toFinset) := by
  refine ⟨fun s b T _ => publicFullSet_rows s b T,
    publicFullSet_idem, ?_, fun s b T owned h => userFullSet_rows s b T owned h,
    ?_⟩
  · intro s b
    rw [publicFullSet_rows]
    ext ⟨x, y⟩
    simp only [List.map_cons, List.map_nil, List.mem_toFinset, List.mem_cons,
      List.not_mem_nil, or_false, Finset.mem_insert, Finset.mem_singleton]
  · intro s b T owned h hall
    rw [userFullSet_rows s b T owned h,
      List.filter_eq_self.2 (fun t ht => by simpa using hall t ht)]

/-- Claim C1, witness: a concrete run of the public reconciliation. -/
theorem C1_witness :
    (publicFullSet (∅ : JoinTable) 0 [1]).filter (fun r => r.1 = 0) =
      (([1].map (fun t => (0, t))).toFinset : JoinTable) :=
  C1_fullSet_reconciliation.1 ∅ 0 [1] (by decide)

/-- Claim C6: with an empty tag-id list, the user-scoped
`fullSetBookmarkToTag` returns at once and leaves the join table untouched,
while the public-scoped variant deletes every association row of the
bookmark and inserts nothing. -/
theorem C6_empty_tagIds_asymmetry :
    (∀ (s : JoinTable) (b : Nat) (owned : List Nat),
        userFullSet s b [] owned = s) ∧
    (∀ (s : JoinTable) (b : Nat),
        publicFullSet s b [] = s.filter (fun r => ¬r.1 = b)) := by
  refine ⟨fun s b owned => by simp [userFullSet], fun s b => ?_⟩
  ext ⟨x, y⟩
  simp [publicFullSet]

lemma mem_insertSorted (le : α → α → Bool) (a x : α) (l : List α) :
    x ∈ insertSorted le a l ↔ x = a ∨ x ∈ l := by
  induction l with
  | nil => simp [insertSorted]
  | cons b t ih =>
    simp only [insertSorted]
    split
    · simp [List.mem_cons]
    · simp only [List.mem_cons, ih]
      tauto

lemma mem_sortBy (le : α → α → Bool) (x : α) (l : List α) :
    x ∈ sortBy le l ↔ x ∈ l := by
  induction l with
  | nil => simp [sortBy]
  | cons b t ih =>
    show x ∈ insertSorted le b (sortBy le t) ↔ _
    rw [mem_insertSorted, ih, List.mem_cons]

lemma mem_applyOrder (k : String) (f g h : α → Int) (x : α) (l : List α) :
    x ∈ applyOrder k f g h l ↔ x ∈ l := by
  unfold applyOrder
  split_ifs <;> simp [mem_sortBy]

/-- Soundness of the `HAVING COUNT(DISTINCT …)` tag filter: if bookmark
`b` passes the filter for `tagIds`, then the join table holds a row
`(b, t)` for every requested tag `t`. -/
lemma tagFilterMatches_sound {rows : JoinTable} {tagIds : List Nat} {b : Nat}
    (h : tagFilterMatches rows tagIds b = true) :
    ∀ t ∈ tagIds, (b, t) ∈ rows := by
  intro t ht
  have hcard : ((rows.filter (fun r => r.1 = b ∧ r.2 ∈ tagIds)).image
      (fun r => r.2)).card = tagIds.length := by
    simpa [tagFilterMatches] using h
  set M := (rows.filter (fun r => r.1 = b ∧ r.2 ∈ tagIds)).image
    (fun r => r.2) with hM
  have hsub : M ⊆ tagIds.toFinset := by
    intro y hy
    simp only [hM, Finset.mem_image, Finset.mem_filter] at hy
    obtain ⟨r, ⟨_, _, hmem⟩, rfl⟩ := hy
    exact List.mem_toFinset.2 hmem
  have hle : tagIds.toFinset.card ≤ M.card := by
    rw [hcard]
    exact List.toFinset_card_le tagIds
  have heq : M = tagIds.toFinset := Finset.eq_of_subset_of_card_le hsub hle
  have htM : t ∈ M := by
    rw [heq]
    exact List.mem_toFinset.2 ht
  simp only [hM, Finset.mem_image, Finset.mem_filter] at htM
  obtain ⟨⟨r1, r2⟩, ⟨hr, hb, _⟩, hsnd⟩ := htM
  simp only at hb hsnd
  subst hb
  subst hsnd
  exact hr

/-- Claim C2: in both scopes, whenever `findMany` filters by a tag-id
list, every returned bookmark carries an association row for each of the
filtered tag ids (AND-of-tags semantics).  For the user scope the filtered
list is the name-resolved request restricted to the user's own tags.  A
bookmark tagged exactly `{1, 2}` is excluded by a query for `[1, 3]`. -/
theorem C2_tag_and_semantics :
    (∀ (db : PubDB) (q : FindQuery) (r : PubRow),
        r ∈ (publicFindMany db q).list →
        ∀ t ∈ resolveTagIds db.tags q, (r.id, t) ∈ db.rows) ∧
    (∀ (db : UserDB) (userId : Nat) (q : FindQuery) (r : UserRow),
        r ∈ (userFindMany db userId q).list →
        ∀ t ∈ userResolvedTagIds db q, (r.id, t) ∈ db.rows) ∧
    (publicFindMany exDb1 exQuery13).list = [] := by
  refine ⟨?_, ?_, by decide⟩
  · intro db q r hr t ht
    have h1 : r ∈ applyOrder q.sorterKey (fun r => r.sortOrder)
        (fun r => r.updatedAt) (fun r => r.createdAt)
        (db.bookmarks.filter (fun r =>
          (if kwTruthy q.keyword then
              keywordMatch (q.keyword.getD "") r.name r.url r.pinyin
            else true) &&
          (if (resolveTagIds db.tags q).isEmpty then true
            else tagFilterMatches db.rows (resolveTagIds db.tags q) r.id))) :=
      List.mem_of_mem_drop (List.mem_of_mem_take hr)
    have h2 := (mem_applyOrder _ _ _ _ _ _).1 h1
    obtain ⟨-, hpred⟩ := List.mem_filter.1 h2
    obtain ⟨-, hB⟩ := Bool.and_eq_true_iff.1 hpred
    have hne : (resolveTagIds db.tags q).isEmpty = false := by
      rw [Bool.eq_false_iff]
      intro hT
      exact List.ne_nil_of_mem ht (List.isEmpty_iff.1 hT)
    rw [hne] at hB
    simp only [Bool.false_eq_true, if_false] at hB
    exact tagFilterMatches_sound hB t ht
  · intro db userId q r hr t ht
    have h1 : r ∈ applyOrder q.sorterKey (fun r => r.sortOrder)
        (fun r => r.updatedAt) (fun r => r.createdAt)
        (db.bookmarks.filter (fun r =>
          (r.userId = userId : Bool) &&
          (if kwTruthy q.keyword then
              keywordMatch (q.keyword.getD "") r.name r.url r.pinyin
            else true) &&
          (if (userResolvedTagIds db q).isEmpty then true
            else tagFilterMatches db.rows (userResolvedTagIds db q) r.id))) :=
      List.mem_of_mem_drop (List.mem_of_mem_take hr)
    have h2 := (mem_applyOrder _ _ _ _ _ _).1 h1
    obtain ⟨-, hpred⟩ := List.mem_filter.1 h2
    obtain ⟨-, hB⟩ := Bool.and_eq_true_iff.1 hpred
    have hne : (userResolvedTagIds db q).isEmpty = false := by
      rw [Bool.eq_false_iff]
      intro hT
      exact List.ne_nil_of_mem ht (List.isEmpty_iff.1 hT)
    rw [hne] at hB
    simp only [Bool.false_eq_true, if_false] at hB
    exact tagFilterMatches_sound hB t ht

/-- Claim C2, witness: the bookmark returned for the query `[1, 2]` over
the fixture database indeed carries both tags. -/
theorem C2_witness :
    ((1, 1) : Nat × Nat) ∈ exDb1.rows ∧ ((1, 2) : Nat × Nat) ∈ exDb1.rows := by
  have h := C2_tag_and_semantics.1 exDb1 exQuery12 exRow1 (by decide)
  exact ⟨h 1 (by decide), h 2 (by decide)⟩

lemma foldl_group_update (tagKeys : List Nat) (item : HtmlItem)
    (tagIds : List Nat) (m : Nat → List HtmlItem) (t : Nat)
    (htk : t ∈ tagKeys) (hnd : tagIds.Nodup) :
    (tagIds.foldl (fun m tId =>
        if tId ∈ tagKeys then fun s => if s = tId then m s ++ [item] else m s
        else m) m) t =
      m t ++ (if t ∈ tagIds then [item] else []) := by
  induction tagIds generalizing m with
  | nil => simp
  | cons a rest ih =>
    have hnd' : rest.Nodup := (List.nodup_cons.1 hnd).2
    have hna : a ∉ rest := (List.nodup_cons.1 hnd).1
    simp only [List.foldl_cons]
    rw [ih _ hnd']
    by_cases hta : t = a
    · subst hta
      rw [if_pos htk]
      simp [hna]
    · by_cases hak : a ∈ tagKeys
      · rw [if_pos hak]
        simp [hta, List.mem_cons]
      · rw [if_neg hak]
        simp [List.mem_cons, hta]

lemma exportFold_snd (tagKeys : List Nat) (list : List ExpBookmark)
    (acc : (Nat → List HtmlItem) × List HtmlItem) :
    (list.foldl (exportGroupStep tagKeys) acc).2 =
      acc.2 ++ (list.filter (fun b => b.relatedTagIds.isEmpty)).map toItem := by
  induction list generalizing acc with
  | nil => simp
  | cons b rest ih =>
    simp only [List.foldl_cons]
    rw [ih]
    unfold exportGroupStep
    by_cases hb : b.relatedTagIds.isEmpty
    · simp [hb, List.filter_cons]
    · simp [hb, List.filter_cons]

lemma exportFold_fst (tagKeys : List Nat) (list : List ExpBookmark)
    (acc : (Nat → List HtmlItem) × List HtmlItem) (t : Nat)
    (htk : t ∈ tagKeys) (hnd : ∀ b ∈ list, b.relatedTagIds.Nodup) :
    (list.foldl (exportGroupStep tagKeys) acc).1 t =
      acc.1 t ++ (list.filter (fun b =>
        decide (b.relatedTagIds ≠ [] ∧ t ∈ b.relatedTagIds))).map toItem := by
  induction list generalizing acc with
  | nil => simp
  | cons b rest ih =>
    simp only [List.foldl_cons]
    rw [ih _ (fun x hx => hnd x (List.mem_cons_of_mem _ hx))]
    unfold exportGroupStep
    by_cases hb : b.relatedTagIds.isEmpty
    · have hbe : b.relatedTagIds = [] := List.isEmpty_iff.1 hb
      simp [hb, List.filter_cons, hbe]
    · have hbe : b.relatedTagIds ≠ [] := by
        intro hx
        exact absurd (by simp [hx]) (hb ∘ id)
      rw [if_neg hb]
      have hstep := foldl_group_update tagKeys (toItem b) b.relatedTagIds
        acc.1 t htk (hnd b (List.mem_cons_self _ _))
      by_cases ht' : t ∈ b.relatedTagIds
      · simp only [List.filter_cons]
        rw [hstep]
        simp [ht', hbe]
      · simp only [List.filter_cons]
        rw [hstep]
        simp [ht', hbe]

lemma exportGroups_fst (tags : List (Nat × String)) (list : List ExpBookmark)
    (t : Nat) (htk : t ∈ tags.map (fun p => p.1))
    (hnd : ∀ b ∈ list, b.relatedTagIds.Nodup) :
    (exportGroups tags list).1 t =
      (list.filter (fun b =>
        decide (b.relatedTagIds ≠ [] ∧ t ∈ b.relatedTagIds))).map toItem := by
  unfold exportGroups
  rw [exportFold_fst _ _ _ _ htk hnd]
  simp

lemma exportGroups_snd (tags : List (Nat × String)) (list : List ExpBookmark) :
    (exportGroups tags list).2 =
      (list.filter (fun b => b.relatedTagIds.isEmpty)).map toItem := by
  unfold exportGroups
  rw [exportFold_snd]
  simp

/-- Claim C4, counterexample: bookmark `exDangler`, whose tag list after
dropping ids not in the fetched tag set is empty, appears in no folder at
all — the export emits no 未分类 folder for it, contradicting the claim
that such a bookmark is placed into the 未分类 bucket. -/
theorem C4_dangling_counterexample :
    exDangler.relatedTagIds.filter
        (fun t => t ∈ ([(1, "a")] : List (Nat × String)).map (fun p => p.1)) = [] ∧
    exportFolders [(1, "a")] [exDangler] = [] := by decide

/-- Claim C4 (amended): the untagged bucket is decided by the raw
(finite-filtered) tag-id list, not by the list after dropping dangling
ids: a bookmark with an empty tag-id list goes only to 未分类; a bookmark
with a non-empty tag-id list is placed into the folder of each of its tags
present in the fetched tag set — so one whose tags are all dangling
appears in no folder; folders are emitted in tag-fetch order, tags with an
empty bucket are skipped, 未分类 is appended last when non-empty.  (The
tag lists are assumed duplicate-free, per the join table's uniqueness
invariant.) -/
theorem C4_export_grouping :
    ∀ (tags : List (Nat × String)) (list : List ExpBookmark),
      (∀ b ∈ list, b.relatedTagIds.Nodup) →
      exportFolders tags list =
        (tags.filterMap (fun tg =>
          if ((list.filter (fun b =>
              decide (b.relatedTagIds ≠ [] ∧ tg.1 ∈ b.relatedTagIds))).map
                toItem).isEmpty
          then none
          else some ⟨tg.2, (list.filter (fun b =>
              decide (b.relatedTagIds ≠ [] ∧ tg.1 ∈ b.relatedTagIds))).map
                toItem⟩)) ++
        (if ((list.filter (fun b => b.relatedTagIds.isEmpty)).map
            toItem).isEmpty
          then []
          else [⟨"未分类",
            (list.filter (fun b => b.relatedTagIds.isEmpty)).map toItem⟩]) := by
  intro tags list hnd
  unfold exportFolders
  refine congrArg₂ (· ++ ·) ?_ ?_
  · refine List.filterMap_congr ?_
    intro tg htg
    rw [exportGroups_fst tags list tg.1 (List.mem_map.2 ⟨tg, htg, rfl⟩) hnd]
  · rw [exportGroups_snd]

/-- Claim C4, witness: a concrete export with a doubly-tagged bookmark and
an untagged bookmark. -/
theorem C4_witness :
    exportFolders [(1, "a"), (2, "b")] [exTagged12, exUntagged] =
      ([(1, "a"), (2, "b")].filterMap (fun tg =>
        if (([exTagged12, exUntagged].filter (fun b =>
            decide (b.relatedTagIds ≠ [] ∧ tg.1 ∈ b.relatedTagIds))).map
              toItem).isEmpty
        then none
        else some ⟨tg.2, ([exTagged12, exUntagged].filter (fun b =>
            decide (b.relatedTagIds ≠ [] ∧ tg.1 ∈ b.relatedTagIds))).map
              toItem⟩)) ++
      (if (([exTagged12, exUntagged].filter
          (fun b => b.relatedTagIds.isEmpty)).map toItem).isEmpty
        then []
        else [⟨"未分类", ([exTagged12, exUntagged].filter
          (fun b => b.relatedTagIds.isEmpty)).map toItem⟩]) :=
  C4_export_grouping _ _ (by decide)

lemma toUnixSeconds_clock_congr {n n' : Int}
    (h : Int.fdiv n 1000 = Int.fdiv n' 1000) (v : Option TimeVal) :
    toUnixSeconds v n = toUnixSeconds v n' := by
  cases v with
  | none => simpa [toUnixSeconds] using h
  | some tv =>
    cases tv with
    | date ms => rfl
    | num m => rfl
    | str p =>
      cases p with
      | none => simpa [toUnixSeconds] using h
      | some t => rfl

lemma folderLines_clock_congr {n n' : Int}
    (h : Int.fdiv n 1000 = Int.fdiv n' 1000) (f : HtmlFolder) :
    folderLines f n = folderLines f n' := by
  unfold folderLines
  have hmap : f.bookmarks.map (fun b => bookmarkEntryLine b n) =
      f.bookmarks.map (fun b => bookmarkEntryLine b n') :=
    List.map_congr_left (fun b _ => by
      unfold bookmarkEntryLine
      rw [toUnixSeconds_clock_congr h])
  rw [hmap, h]

lemma buildBookmarkLines_clock_congr {n n' : Int}
    (h : Int.fdiv n 1000 = Int.fdiv n' 1000) (title folderName : String)
    (folders : List HtmlFolder) :
    buildBookmarkLines title folderName folders n =
      buildBookmarkLines title folderName folders n' := by
  unfold buildBookmarkLines
  have hfm : folders.flatMap (fun f => folderLines f n) =
      folders.flatMap (fun f => folderLines f n') := by
    induction folders with
    | nil => rfl
    | cons f rest ih =>
      simp only [List.flatMap_cons]
      rw [folderLines_clock_congr h f, ih]
  rw [hfm, h]

set_option maxRecDepth 4000 in
/-- Claim C3, counterexample: the export embeds `Date.now()` in every
folder ADD_DATE, so two calls with identical (here: empty) fixtures made
at different clock values produce different bytes. -/
theorem C3_clock_counterexample :
    exportPublicHtml [] [] 0 ≠ exportPublicHtml [] [] 1000 := by decide

/-- Claim C3 (amended): the export output is a deterministic function of
the fixtures and of the wall-clock second of the call — two calls with
identical tag and bookmark fixtures produce byte-identical documents
provided they fall in the same Unix second; calls in different seconds
differ in the folder ADD_DATE bytes. -/
theorem C3_same_second_determinism :
    ∀ (tags : List (Nat × String)) (list : List ExpBookmark) (n n' : Int),
      Int.fdiv n 1000 = Int.fdiv n' 1000 →
      exportPublicHtml tags list n = exportPublicHtml tags list n' ∧
      exportUserHtml tags list n = exportUserHtml tags list n' := by
  intro tags list n n' h
  constructor
  · unfold exportPublicHtml buildBookmarkHtml
    rw [buildBookmarkLines_clock_congr h]
  · unfold exportUserHtml buildBookmarkHtml
    rw [buildBookmarkLines_clock_congr h]

/-- Claim C3, witness: two calls inside the same second agree. -/
theorem C3_witness :
    exportPublicHtml [] [] 5 = exportPublicHtml [] [] 900 ∧
    exportUserHtml [] [] 5 = exportUserHtml [] [] 900 :=
  C3_same_second_determinism [] [] 5 900 (by decide)

/-- Claim C8, counterexample: with an unparseable `createdAt` string and a
perfectly valid `updatedAt` date of 5000 ms, the code's ADD_DATE is the
current time (999), not the claimed fallback to updatedAt's 5 seconds —
`createdAt ?? updatedAt` only falls back on a missing createdAt, never on
an unparseable one. -/
theorem C8_unparseable_created_counterexample :
    toUnixSeconds (coalesce (some (TimeVal.str none))
      (some (TimeVal.date 5000))) 999000 = 999 ∧
    specAddDate (some (TimeVal.str none)) (some (TimeVal.date 5000))
      999000 = 5 ∧
    (999 : Int) ≠ 5 := by decide

/-- Claim C8 (amended): each entry's ADD_DATE is
`toUnixSeconds(createdAt ?? updatedAt)`: updatedAt is consulted only when
createdAt is null/undefined; a present createdAt that fails to parse falls
back to the current time even when updatedAt is valid; numbers above
10,000,000,000 are treated as milliseconds and floor-divided by 1000,
other numbers are used as is; when both fields are absent the current time
is used. -/
theorem C8_add_date_semantics :
    (∀ (b : HtmlItem) (n : Int), bookmarkEntryLine b n =
      "      <DT><A HREF=\"" ++ escapeHtml b.url ++ "\" ADD_DATE=\"" ++
        toString (toUnixSeconds (coalesce b.createdAt b.updatedAt) n) ++
        "\">" ++ escapeHtml (if b.name = "" then b.url else b.name) ++
        "</A>") ∧
    (∀ (u : Option TimeVal) (n : Int),
      toUnixSeconds (coalesce none u) n = toUnixSeconds u n) ∧
    (∀ (c u : Option TimeVal) (n : Int), c ≠ none →
      toUnixSeconds (coalesce c u) n = toUnixSeconds c n) ∧
    (∀ (m n : Int), toUnixSeconds (some (TimeVal.num m)) n =
      if 10000000000 < m then Int.fdiv m 1000 else m) ∧
    (∀ n : Int, toUnixSeconds none n = Int.fdiv n 1000) := by
  refine ⟨fun b n => rfl, fun u n => rfl, ?_, fun m n => rfl, fun n => rfl⟩
  intro c u n hc
  cases c with
  | none => exact absurd rfl hc
  | some v => rfl

/-- Claim C8, witness: a present createdAt wins over updatedAt. -/
theorem C8_witness :
    toUnixSeconds (coalesce (some (TimeVal.date 3000))
        (some (TimeVal.date 7000))) 0 =
      toUnixSeconds (some (TimeVal.date 3000)) 0 :=
  C8_add_date_semantics.2.2.1 (some (TimeVal.date 3000))
    (some (TimeVal.date 7000)) 0 (by decide)

/-- Claim C5: `insert` fails with the duplicate error iff some existing
bookmark of the same scope (and, in the user scope, of the same owner) has
exactly the same url or exactly the same name — string equality, hence
case-sensitive; with a distinct url and name the insert succeeds. -/
theorem C5_insert_duplicate_iff :
    (∀ (gp : String → String) (db : PubDB) (newId : Nat) (now : Int)
        (d : InsertDraft),
      (∃ e, publicInsert gp db newId now d = Except.error e) ↔
        ∃ r ∈ db.bookmarks, r.url = d.url ∨ r.name = d.name) ∧
    (∀ (gp : String → String) (db : UserDB) (userId newId : Nat) (now : Int)
        (d : InsertDraft),
      (∃ e, userInsert gp db userId newId now d = Except.error e) ↔
        ∃ r ∈ db.bookmarks,
          r.userId = userId ∧ (r.url = d.url ∨ r.name = d.name)) := by
  constructor
  · intro gp db newId now d
    by_cases hc : 0 < db.bookmarks.countP
        (fun r => decide (r.url = d.url ∨ r.name = d.name))
    · constructor
      · intro _
        obtain ⟨r, hr, hp⟩ := List.countP_pos_iff.1 hc
        exact ⟨r, hr, of_decide_eq_true hp⟩
      · intro _
        refine ⟨"书签已存在", ?_⟩
        simp only [publicInsert]
        rw [if_pos hc]
    · constructor
      · rintro ⟨e, he⟩
        simp only [publicInsert] at he
        rw [if_neg hc] at he
        exact Except.noConfusion he
      · rintro ⟨r, hr, hor⟩
        exact absurd (List.countP_pos_iff.2 ⟨r, hr, decide_eq_true hor⟩) hc
  · intro gp db userId newId now d
    by_cases hc : 0 < db.bookmarks.countP
        (fun r => decide (r.userId = userId ∧ (r.url = d.url ∨ r.name = d.name)))
    · constructor
      · intro _
        obtain ⟨r, hr, hp⟩ := List.countP_pos_iff.1 hc
        exact ⟨r, hr, of_decide_eq_true hp⟩
      · intro _
        refine ⟨"已存在相同网址或名称的书签", ?_⟩
        simp only [userInsert]
        rw [if_pos hc]
    · constructor
      · rintro ⟨e, he⟩
        simp only [userInsert] at he
        rw [if_neg hc] at he
        exact Except.noConfusion he
      · rintro ⟨r, hr, hor⟩
        exact absurd (List.countP_pos_iff.2 ⟨r, hr, decide_eq_true hor⟩) hc

/-- Claim C7, counterexample: the public `update` with a new name "b" AND
an explicitly supplied pinyin "custom" stores `getPinyin("b")` (here
"auto"), not the supplied value — the `pinyin:` key written after the
object spread overrides the caller's pinyin. -/
theorem C7_public_pinyin_counterexample :
    ((publicUpdate exGp exPubDb7 1 exPatchNamePinyin 5).bookmarks.map
      (fun r => r.pinyin)) = ["auto"] ∧ "auto" ≠ "custom" := by decide

/-- Claim C7 (amended): on a rename to a non-empty name, the user-scope
`update` stores a supplied non-empty pinyin unchanged and recomputes it
from the new name only when pinyin is absent or empty; the public-scope
`update` always recomputes pinyin from a truthy new name, overriding any
supplied value, and never writes the pinyin column when the patch's name
is absent or empty. -/
theorem C7_pinyin_on_rename :
    (∀ (gp : String → String) (p : Patch) (now : Int) (r : PubRow)
        (n : String), p.name = some n → n ≠ "" →
      (pubPatchRow gp p now r).pinyin = gp n) ∧
    (∀ (gp : String → String) (p : Patch) (now : Int) (r : PubRow),
        (p.name = none ∨ p.name = some "") →
      (pubPatchRow gp p now r).pinyin = r.pinyin) ∧
    (∀ (gp : String → String) (p : Patch) (now : Int) (r : UserRow)
        (n q : String), p.name = some n → p.pinyin = some q → q ≠ "" →
      (userPatchRow gp p now r).pinyin = q) ∧
    (∀ (gp : String → String) (p : Patch) (now : Int) (r : UserRow)
        (n : String), p.name = some n → n ≠ "" →
        (p.pinyin = none ∨ p.pinyin = some "") →
      (userPatchRow gp p now r).pinyin = gp n) := by
  refine ⟨?_, ?_, ?_, ?_⟩
  · intro gp p now r n hn hne
    simp [pubPatchRow, hn, hne]
  · rintro gp p now r (hn | hn) <;> simp [pubPatchRow, hn]
  · intro gp p now r n q hn hq hqne
    simp [userPatchRow, hn, hq, hqne]
  · rintro gp p now r n hn hne (hq | hq) <;>
      simp [userPatchRow, hn, hne, hq]

/-- Claim C7, witness: concrete public and user patch applications. -/
theorem C7_witness :
    (pubPatchRow exGp exPatchNamePinyin 5 ⟨1, "a", "u", "pa", 1, 0, 0⟩).pinyin
        = exGp "b" ∧
    (userPatchRow exGp ⟨some "b", none, some "q", none⟩ 5
        ⟨1, 2, "a", "u", "pa", 1, 0, 0⟩).pinyin = "q" :=
  ⟨C7_pinyin_on_rename.1 exGp exPatchNamePinyin 5 _ "b" rfl (by decide),
    C7_pinyin_on_rename.2.2.1 exGp ⟨some "b", none, some "q", none⟩ 5 _
      "b" "q" rfl rfl (by decide)⟩

/-- Claim C10: with a non-empty id list, `deleteMany` answers
`deleted = ids.length` in both scopes no matter how many rows actually
matched; on an empty database the reported count 1 exceeds the 0 rows
removed. -/
theorem C10_deleteMany_count :
    (∀ (db : PubDB) (ids : List Nat), ids ≠ [] →
      (publicDeleteMany db ids).2 = ids.length) ∧
    (∀ (db : UserDB) (userId : Nat) (ids : List Nat), ids ≠ [] →
      (userDeleteMany db userId ids).2 = ids.length) ∧
    ((publicDeleteMany emptyPubDB [7]).2 = 1 ∧
      (publicDeleteMany emptyPubDB [7]).1.bookmarks.length = 0) := by
  refine ⟨?_, ?_, by decide⟩
  · intro db ids h
    unfold publicDeleteMany
    rw [if_neg (by simp [List.isEmpty_iff, h])]
  · intro db userId ids h
    unfold userDeleteMany
    rw [if_neg (by simp [List.isEmpty_iff, h])]

/-- Claim C10, witness: deleting the nonexistent id 7 reports 1. -/
theorem C10_witness :
    (publicDeleteMany emptyPubDB [7]).2 = ([7] : List Nat).length ∧
    (userDeleteMany emptyUserDB 1 [7]).2 = ([7] : List Nat).length :=
  ⟨C10_deleteMany_count.1 emptyPubDB [7] (by decide),
    C10_deleteMany_count.2.1 emptyUserDB 1 [7] (by decide)⟩

lemma foldl_max_acc_le (bs : List SortB) (acc : Int) :
    acc ≤ bs.foldl (fun m b => max m (b.sortOrder.getD 0)) acc := by
  induction bs generalizing acc with
  | nil => exact le_refl acc
  | cons b t ih =>
    simp only [List.foldl_cons]
    exact le_trans (le_max_left _ _) (ih _)

lemma mem_le_foldl_max (bs : List SortB) :
    ∀ (acc : Int) (b : SortB), b ∈ bs →
      b.sortOrder.getD 0 ≤
        bs.foldl (fun m x => max m (x.sortOrder.getD 0)) acc := by
  induction bs with
  | nil =>
    intro acc b hb
    cases hb
  | cons x t ih =>
    intro acc b hb
    simp only [List.foldl_cons]
    rcases List.mem_cons.1 hb with h | h
    · subst h
      exact le_trans (le_max_right _ _) (foldl_max_acc_le t _)
    · exact ih _ b h

lemma saveSorting_unfiltered_eq (bs : List SortB) (hne : bs.isEmpty = false) :
    saveSortingOrders false bs =
      bs.enum.map (fun p => (p.2.id,
        maxExistingOrder bs + (bs.length : Int) - (p.1 : Int))) := by
  unfold saveSortingOrders
  rw [if_neg (by rw [hne]; exact Bool.false_ne_true)]
  rfl

lemma saveSorting_length (bs : List SortB) :
    (saveSortingOrders false bs).length = bs.length := by
  by_cases hbs : bs.isEmpty
  · have h : bs = [] := List.isEmpty_iff.1 hbs
    subst h
    rfl
  · rw [saveSorting_unfiltered_eq bs (Bool.eq_false_iff.2 hbs)]
    rw [List.length_map, List.enum_length]

lemma saveSorting_getElem (bs : List SortB) (i : Nat) (h : i < bs.length) :
    (saveSortingOrders false bs)[i]? =
      some ((bs.get ⟨i, h⟩).id,
        maxExistingOrder bs + (bs.length : Int) - (i : Int)) := by
  have hnenil : bs ≠ [] :=
    List.ne_nil_of_length_pos (Nat.lt_of_le_of_lt (Nat.zero_le i) h)
  have hne : bs.isEmpty = false := by
    rw [Bool.eq_false_iff]
    intro hT
    exact hnenil (List.isEmpty_iff.1 hT)
  rw [saveSorting_unfiltered_eq bs hne, List.getElem?_map,
    List.getElem?_enum, List.getElem?_eq_getElem h]
  rfl

/-- Claim C9: with no active filter the reconciler assigns the bookmark at
index `i` the order `(max existing sortOrder, floored at 0) + n - i`; every
assigned order strictly exceeds every previous order; the assigned orders
strictly decrease down the displayed list (unique, order-descending); and
for `[{id: 2, order: 5}, {id: 1, order: 10}]` displayed as `[2, 1]` the
writes are `id2 → 12` and `id1 → 11`. -/
theorem C9_sort_reconciler_no_filter :
    (∀ (bs : List SortB) (i : Nat) (h : i < bs.length),
      (saveSortingOrders false bs)[i]? =
        some ((bs.get ⟨i, h⟩).id,
          maxExistingOrder bs + (bs.length : Int) - (i : Int))) ∧
    (∀ (bs : List SortB), ∀ b ∈ bs, ∀ o ∈ saveSortingOrders false bs,
      b.sortOrder.getD 0 < o.2) ∧
    (∀ bs : List SortB,
      ((saveSortingOrders false bs).map (fun o => o.2)).Pairwise
        (fun x y => y < x)) ∧
    saveSortingOrders false exSortList = [(2, 12), (1, 11)] := by
  refine ⟨saveSorting_getElem, ?_, ?_, by decide⟩
  · intro bs b hb o ho
    obtain ⟨i, hio⟩ := List.mem_iff_getElem?.1 ho
    have hilt : i < bs.length := by
      have := List.getElem?_eq_some_iff.1 hio
      obtain ⟨hl, -⟩ := this
      rwa [saveSorting_length] at hl
    rw [saveSorting_getElem bs i hilt] at hio
    have hsnd : o.2 = maxExistingOrder bs + (bs.length : Int) - (i : Int) := by
      cases Option.some.inj hio
      rfl
    have hmax : b.sortOrder.getD 0 ≤ maxExistingOrder bs :=
      mem_le_foldl_max bs 0 b hb
    rw [hsnd]
    omega
  · intro bs
    by_cases hbs : bs.isEmpty
    · have h : bs = [] := List.isEmpty_iff.1 hbs
      subst h
      simp [saveSortingOrders]
    · rw [saveSorting_unfiltered_eq bs (Bool.eq_false_iff.2 hbs)]
      have h1 : (bs.enum.map (fun p => (p.2.id,
          maxExistingOrder bs + (bs.length : Int) - (p.1 : Int)))).map
            (fun o => o.2) =
          (List.range bs.length).map
            (fun (i : Nat) =>
              maxExistingOrder bs + (bs.length : Int) - (i : Int)) := by
        rw [List.map_map, ← List.enum_map_fst bs, List.map_map]
        rfl
      rw [h1]
      refine List.pairwise_map.2 ?_
      refine List.Pairwise.imp ?_ (List.pairwise_lt_range _)
      intro i j hij
      omega

/-- Claim C9, witness: the example run, read off at index 0. -/
theorem C9_witness :
    (saveSortingOrders false exSortList)[0]? =
      some ((exSortList.get ⟨0, by decide⟩).id,
        maxExistingOrder exSortList + (exSortList.length : Int) -
          ((0 : Nat) : Int)) :=
  C9_sort_reconciler_no_filter.1 exSortList 0 (by decide)

end Bmm
